import Mathlib

set_option maxHeartbeats 1000000

namespace Whispr

/-- Model of a JavaScript runtime value, as discriminated by `safeClone` in the
repository's utils module. Heap-allocated values carry a `Nat` identity so that
reference equality and aliasing are expressible; primitives carry none.
Notes on the abstraction: numbers are modelled by `Int` (no NaN/float detail is
needed by the claims); `objWithClone` models a non-array object whose `clone`
property is a function, with the payload being the value that invoking `clone()`
returns (`none` models a `clone()` that throws); `classInstance` models an
object judged by `isLikelyClassInstance` to be a user-defined class instance
with no `clone` method, carrying its `skipSafeClone` marker; `obj` models a
plain object (prototype `Object.prototype`) as its ordered own enumerable
string-keyed fields. -/
inductive JSValue : Type where
  | null : JSValue
  | undef : JSValue
  | str : String → JSValue
  | num : Int → JSValue
  | bigint : Int → JSValue
  | sym : Nat → JSValue
  | bool : Bool → JSValue
  | arr : Nat → List JSValue → JSValue
  | jsmap : Nat → List (JSValue × JSValue) → JSValue
  | jsset : Nat → List JSValue → JSValue
  | jserror : Nat → String → String → Option String → List (String × JSValue) → JSValue
  | date : Nat → Int → JSValue
  | regexp : Nat → String → String → JSValue
  | arraybuffer : Nat → List Nat → JSValue
  | func : Nat → JSValue
  | objWithClone : Nat → Option JSValue → JSValue
  | classInstance : Nat → Bool → JSValue
  | obj : Nat → List (String × JSValue) → JSValue
  deriving Repr

/-- JavaScript truthiness test, as used by the `if (!data) return;` guard in
`Whispr.wait`: `null`, `undefined`, `""`, `0`, `0n` and `false` are falsy,
every other value (including every object) is truthy. -/
def isFalsy : JSValue → Bool
  | .null => true
  | .undef => true
  | .str s => s.isEmpty
  | .num i => i == 0
  | .bigint i => i == 0
  | .bool b => !b
  | _ => false

mutual

/-- Embedding of `safeClone` (the deep-clone service in the repository's utils
module). Branches follow the source's dispatch order: primitives returned
as-is; arrays remapped element-wise; `Map` rebuilt with cloned keys and values;
`Set` rebuilt with cloned items; `Error` rebuilt as `new Error(message)` with
`stack = value.stack ?? "No Stack Found"`; `Date`, `RegExp` and `ArrayBuffer`
rebuilt from their observable fields; functions returned as-is; an object with
a `clone` method yields whatever `clone()` returns (a throwing `clone()` is
surfaced as `Except.error`, since the source invokes it outside any
`try`/`catch`); a likely class instance is returned as-is; a plain object is
rebuilt field-wise via `Object.entries`/`Object.fromEntries`. The `Nat`
argument is the allocator for identities of newly constructed values: each
construction takes the current counter as its identity and bumps it. -/
def safeClone : JSValue → Nat → Except Unit (JSValue × Nat)
  | .null, n => .ok (.null, n)
  | .undef, n => .ok (.undef, n)
  | .str s, n => .ok (.str s, n)
  | .num i, n => .ok (.num i, n)
  | .bigint i, n => .ok (.bigint i, n)
  | .sym i, n => .ok (.sym i, n)
  | .bool b, n => .ok (.bool b, n)
  | .arr _ items, n =>
    match safeCloneList items n with
    | .error e => .error e
    | .ok (items2, n2) => .ok (.arr n2 items2, n2 + 1)
  | .jsmap _ entries, n =>
    match safeClonePairs entries n with
    | .error e => .error e
    | .ok (entries2, n2) => .ok (.jsmap n2 entries2, n2 + 1)
  | .jsset _ items, n =>
    match safeCloneList items n with
    | .error e => .error e
    | .ok (items2, n2) => .ok (.jsset n2 items2, n2 + 1)
  | .jserror _ _ msg stk _, n =>
    .ok (.jserror n "Error" msg (some (stk.getD "No Stack Found")) [], n + 1)
  | .date _ t, n => .ok (.date n t, n + 1)
  | .regexp _ s f, n => .ok (.regexp n s f, n + 1)
  | .arraybuffer _ bs, n => .ok (.arraybuffer n bs, n + 1)
  | .func i, n => .ok (.func i, n)
  | .objWithClone _ r, n =>
    match r with
    | some w => .ok (w, n)
    | none => .error ()
  | .classInstance i m, n => .ok (.classInstance i m, n)
  | .obj _ fields, n =>
    match safeCloneFields fields n with
    | .error e => .error e
    | .ok (fields2, n2) => .ok (.obj n2 fields2, n2 + 1)

/-- Element-wise cloning of an array's items (`value.map((item) => safeClone(item))`). -/
def safeCloneList : List JSValue → Nat → Except Unit (List JSValue × Nat)
  | [], n => .ok ([], n)
  | v :: vs, n =>
    match safeClone v n with
    | .error e => .error e
    | .ok (w, n2) =>
      match safeCloneList vs n2 with
      | .error e => .error e
      | .ok (ws, n3) => .ok (w :: ws, n3)

/-- Entry-wise cloning of a `Map`'s entries (`newMap.set(safeClone(k), safeClone(v))`). -/
def safeClonePairs : List (JSValue × JSValue) → Nat → Except Unit (List (JSValue × JSValue) × Nat)
  | [], n => .ok ([], n)
  | (k, v) :: rest, n =>
    match safeClone k n with
    | .error e => .error e
    | .ok (k2, n2) =>
      match safeClone v n2 with
      | .error e => .error e
      | .ok (v2, n3) =>
        match safeClonePairs rest n3 with
        | .error e => .error e
        | .ok (rest2, n4) => .ok ((k2, v2) :: rest2, n4)

/-- Field-wise cloning of a plain object's entries
(`Object.fromEntries(Object.entries(value).map(([key, value]) => [key, safeClone(value)]))`). -/
def safeCloneFields : List (String × JSValue) → Nat → Except Unit (List (String × JSValue) × Nat)
  | [], n => .ok ([], n)
  | (k, v) :: rest, n =>
    match safeClone v n with
    | .error e => .error e
    | .ok (v2, n2) =>
      match safeCloneFields rest n2 with
      | .error e => .error e
      | .ok (rest2, n3) => .ok ((k, v2) :: rest2, n3)

end

mutual

/-- Diagnostics that a `safeClone` call writes to the console, in source order
of the traversal. The source's `safeClone` contains no `console.warn` (or any
other console call) on any branch — in particular not on the
`isLikelyClassInstance` branch — so every branch contributes nothing and only
concatenates the diagnostics of the recursive calls. -/
def cloneWarnings : JSValue → List String
  | .null => []
  | .undef => []
  | .str _ => []
  | .num _ => []
  | .bigint _ => []
  | .sym _ => []
  | .bool _ => []
  | .arr _ items => cloneWarningsList items
  | .jsmap _ entries => cloneWarningsPairs entries
  | .jsset _ items => cloneWarningsList items
  | .jserror _ _ _ _ _ => []
  | .date _ _ => []
  | .regexp _ _ _ => []
  | .arraybuffer _ _ => []
  | .func _ => []
  | .objWithClone _ _ => []
  | .classInstance _ _ => []
  | .obj _ fields => cloneWarningsFields fields

/-- Diagnostics of element-wise array cloning. -/
def cloneWarningsList : List JSValue → List String
  | [] => []
  | v :: vs => cloneWarnings v ++ cloneWarningsList vs

/-- Diagnostics of entry-wise map cloning. -/
def cloneWarningsPairs : List (JSValue × JSValue) → List String
  | [] => []
  | (k, v) :: rest => cloneWarnings k ++ cloneWarnings v ++ cloneWarningsPairs rest

/-- Diagnostics of field-wise object cloning. -/
def cloneWarningsFields : List (String × JSValue) → List String
  | [] => []
  | (_, v) :: rest => cloneWarnings v ++ cloneWarningsFields rest

end

mutual

/-- Erases heap identities on every deeply-cloneable node (arrays, maps, sets,
errors, dates, regexps, array buffers, plain objects), keeping identities on
opaque values that JavaScript compares by reference only (functions, class
instances, symbols, objects with a custom `clone` method). Two values are
deep-equal exactly when their `strip`s are equal. -/
def strip : JSValue → JSValue
  | .null => .null
  | .undef => .undef
  | .str s => .str s
  | .num i => .num i
  | .bigint i => .bigint i
  | .sym i => .sym i
  | .bool b => .bool b
  | .arr _ items => .arr 0 (stripList items)
  | .jsmap _ entries => .jsmap 0 (stripPairs entries)
  | .jsset _ items => .jsset 0 (stripList items)
  | .jserror _ nm msg stk fields => .jserror 0 nm msg stk (stripFields fields)
  | .date _ t => .date 0 t
  | .regexp _ s f => .regexp 0 s f
  | .arraybuffer _ bs => .arraybuffer 0 bs
  | .func i => .func i
  | .objWithClone i r => .objWithClone i r
  | .classInstance i m => .classInstance i m
  | .obj _ fields => .obj 0 (stripFields fields)

/-- List version of `strip`. -/
def stripList : List JSValue → List JSValue
  | [] => []
  | v :: vs => strip v :: stripList vs

/-- Pair-list version of `strip`. -/
def stripPairs : List (JSValue × JSValue) → List (JSValue × JSValue)
  | [] => []
  | (k, v) :: rest => (strip k, strip v) :: stripPairs rest

/-- Field-list version of `strip`. -/
def stripFields : List (String × JSValue) → List (String × JSValue)
  | [] => []
  | (k, v) :: rest => (k, strip v) :: stripFields rest

end

/-- Deep equality of two values: equality of content with heap identities of
cloneable structure erased (opaque values still compare by identity, which is
how JavaScript deep-equality treats functions and unrecognized instances). -/
def deepEq (v w : JSValue) : Prop := strip v = strip w

mutual

/-- Normalizes every error object inside a value the way one pass of the
source's `Error` branch does: the reconstructed error is a base `Error` whose
name is `"Error"`, whose message is preserved, whose stack is
`value.stack ?? "No Stack Found"`, and which carries no other fields. All other
structure is left intact (identities included). This is the content-level
degradation that a write/read round trip applies to errors. -/
def normErr : JSValue → JSValue
  | .null => .null
  | .undef => .undef
  | .str s => .str s
  | .num i => .num i
  | .bigint i => .bigint i
  | .sym i => .sym i
  | .bool b => .bool b
  | .arr i items => .arr i (normErrList items)
  | .jsmap i entries => .jsmap i (normErrPairs entries)
  | .jsset i items => .jsset i (normErrList items)
  | .jserror i _ msg stk _ => .jserror i "Error" msg (some (stk.getD "No Stack Found")) []
  | .date i t => .date i t
  | .regexp i s f => .regexp i s f
  | .arraybuffer i bs => .arraybuffer i bs
  | .func i => .func i
  | .objWithClone i r => .objWithClone i r
  | .classInstance i m => .classInstance i m
  | .obj i fields => .obj i (normErrFields fields)

/-- List version of `normErr`. -/
def normErrList : List JSValue → List JSValue
  | [] => []
  | v :: vs => normErr v :: normErrList vs

/-- Pair-list version of `normErr`. -/
def normErrPairs : List (JSValue × JSValue) → List (JSValue × JSValue)
  | [] => []
  | (k, v) :: rest => (normErr k, normErr v) :: normErrPairs rest

/-- Field-list version of `normErr`. -/
def normErrFields : List (String × JSValue) → List (String × JSValue)
  | [] => []
  | (k, v) :: rest => (k, normErr v) :: normErrFields rest

end

mutual

/-- Holds when a value contains no object with a custom `clone` method, i.e.
cloning it never runs user code. -/
def noCloneOp : JSValue → Bool
  | .null => true
  | .undef => true
  | .str _ => true
  | .num _ => true
  | .bigint _ => true
  | .sym _ => true
  | .bool _ => true
  | .arr _ items => noCloneOpList items
  | .jsmap _ entries => noCloneOpPairs entries
  | .jsset _ items => noCloneOpList items
  | .jserror _ _ _ _ fields => noCloneOpFields fields
  | .date _ _ => true
  | .regexp _ _ _ => true
  | .arraybuffer _ _ => true
  | .func _ => true
  | .objWithClone _ _ => false
  | .classInstance _ _ => true
  | .obj _ fields => noCloneOpFields fields

/-- List version of `noCloneOp`. -/
def noCloneOpList : List JSValue → Bool
  | [] => true
  | v :: vs => noCloneOp v && noCloneOpList vs

/-- Pair-list version of `noCloneOp`. -/
def noCloneOpPairs : List (JSValue × JSValue) → Bool
  | [] => true
  | (k, v) :: rest => noCloneOp k && noCloneOp v && noCloneOpPairs rest

/-- Field-list version of `noCloneOp`. -/
def noCloneOpFields : List (String × JSValue) → Bool
  | [] => true
  | (_, v) :: rest => noCloneOp v && noCloneOpFields rest

end

mutual

/-- Holds when every error object inside a value is already in the normal form
that the clone's `Error` branch produces (name `"Error"`, some stack, no extra
fields), so that `normErr` leaves the value unchanged. Clone outputs satisfy
this. -/
def errNormal : JSValue → Bool
  | .null => true
  | .undef => true
  | .str _ => true
  | .num _ => true
  | .bigint _ => true
  | .sym _ => true
  | .bool _ => true
  | .arr _ items => errNormalList items
  | .jsmap _ entries => errNormalPairs entries
  | .jsset _ items => errNormalList items
  | .jserror _ nm _ stk fields => nm == "Error" && stk.isSome && fields.isEmpty
  | .date _ _ => true
  | .regexp _ _ _ => true
  | .arraybuffer _ _ => true
  | .func _ => true
  | .objWithClone _ _ => true
  | .classInstance _ _ => true
  | .obj _ fields => errNormalFields fields

/-- List version of `errNormal`. -/
def errNormalList : List JSValue → Bool
  | [] => true
  | v :: vs => errNormal v && errNormalList vs

/-- Pair-list version of `errNormal`. -/
def errNormalPairs : List (JSValue × JSValue) → Bool
  | [] => true
  | (k, v) :: rest => errNormal k && errNormal v && errNormalPairs rest

/-- Field-list version of `errNormal`. -/
def errNormalFields : List (String × JSValue) → Bool
  | [] => true
  | (_, v) :: rest => errNormal v && errNormalFields rest

end

mutual

/-- All heap identities occurring in a value (symbols included, since they are
compared by identity; the latent payload of a `clone` method is not part of the
reachable heap and is ignored). -/
def allIds : JSValue → List Nat
  | .null => []
  | .undef => []
  | .str _ => []
  | .num _ => []
  | .bigint _ => []
  | .sym i => [i]
  | .bool _ => []
  | .arr i items => i :: allIdsList items
  | .jsmap i entries => i :: allIdsPairs entries
  | .jsset i items => i :: allIdsList items
  | .jserror i _ _ _ fields => i :: allIdsFields fields
  | .date i _ => [i]
  | .regexp i _ _ => [i]
  | .arraybuffer i _ => [i]
  | .func i => [i]
  | .objWithClone i _ => [i]
  | .classInstance i _ => [i]
  | .obj i fields => i :: allIdsFields fields

/-- List version of `allIds`. -/
def allIdsList : List JSValue → List Nat
  | [] => []
  | v :: vs => allIds v ++ allIdsList vs

/-- Pair-list version of `allIds`. -/
def allIdsPairs : List (JSValue × JSValue) → List Nat
  | [] => []
  | (k, v) :: rest => allIds k ++ allIds v ++ allIdsPairs rest

/-- Field-list version of `allIds`. -/
def allIdsFields : List (String × JSValue) → List Nat
  | [] => []
  | (_, v) :: rest => allIds v ++ allIdsFields rest

end

mutual

/-- Identities of the uncloneable (identity-shared) nodes of a value: functions,
class instances, symbols and objects with a custom `clone` method — the values
`safeClone` passes through by reference. -/
def opaqueIds : JSValue → List Nat
  | .null => []
  | .undef => []
  | .str _ => []
  | .num _ => []
  | .bigint _ => []
  | .sym i => [i]
  | .bool _ => []
  | .arr _ items => opaqueIdsList items
  | .jsmap _ entries => opaqueIdsPairs entries
  | .jsset _ items => opaqueIdsList items
  | .jserror _ _ _ _ fields => opaqueIdsFields fields
  | .date _ _ => []
  | .regexp _ _ _ => []
  | .arraybuffer _ _ => []
  | .func i => [i]
  | .objWithClone i _ => [i]
  | .classInstance i _ => [i]
  | .obj _ fields => opaqueIdsFields fields

/-- List version of `opaqueIds`. -/
def opaqueIdsList : List JSValue → List Nat
  | [] => []
  | v :: vs => opaqueIds v ++ opaqueIdsList vs

/-- Pair-list version of `opaqueIds`. -/
def opaqueIdsPairs : List (JSValue × JSValue) → List Nat
  | [] => []
  | (k, v) :: rest => opaqueIds k ++ opaqueIds v ++ opaqueIdsPairs rest

/-- Field-list version of `opaqueIds`. -/
def opaqueIdsFields : List (String × JSValue) → List Nat
  | [] => []
  | (_, v) :: rest => opaqueIds v ++ opaqueIdsFields rest

end

/-- Heap identity of the value's top node, when it has one. Reference equality
of two heap values is equality of their top identities. -/
def topId : JSValue → Option Nat
  | .null => none
  | .undef => none
  | .str _ => none
  | .num _ => none
  | .bigint _ => none
  | .sym i => some i
  | .bool _ => none
  | .arr i _ => some i
  | .jsmap i _ => some i
  | .jsset i _ => some i
  | .jserror i _ _ _ _ => some i
  | .date i _ => some i
  | .regexp i _ _ => some i
  | .arraybuffer i _ => some i
  | .func i => some i
  | .objWithClone i _ => some i
  | .classInstance i _ => some i
  | .obj i _ => some i

/-- Whether the top node of the value is one that `safeClone` reconstructs as a
fresh allocation (array, map, set, error, date, regexp, array buffer, plain
object), as opposed to a primitive or an identity-shared value. -/
def cloneableTop : JSValue → Bool
  | .arr _ _ => true
  | .jsmap _ _ => true
  | .jsset _ _ => true
  | .jserror _ _ _ _ _ => true
  | .date _ _ => true
  | .regexp _ _ _ => true
  | .arraybuffer _ _ => true
  | .obj _ _ => true
  | _ => false

/-- Allocator invariant: every heap identity in the value is below the fresh
counter. -/
def idsBelow (v : JSValue) (n : Nat) : Prop := ∀ i ∈ allIds v, i < n

/-- Structural induction principle for `JSValue` with membership-style
hypotheses for the nested lists, proved by strong induction on `sizeOf`. -/
theorem jsInduction (P : JSValue → Prop)
    (hnull : P .null)
    (hundef : P .undef)
    (hstr : ∀ s, P (.str s))
    (hnum : ∀ i, P (.num i))
    (hbigint : ∀ i, P (.bigint i))
    (hsym : ∀ i, P (.sym i))
    (hbool : ∀ b, P (.bool b))
    (harr : ∀ i items, (∀ v ∈ items, P v) → P (.arr i items))
    (hjsmap : ∀ i entries, (∀ p ∈ entries, P (Prod.fst p) ∧ P (Prod.snd p)) →
      P (.jsmap i entries))
    (hjsset : ∀ i items, (∀ v ∈ items, P v) → P (.jsset i items))
    (hjserror : ∀ i nm msg stk fields, (∀ p ∈ fields, P (Prod.snd p)) →
      P (.jserror i nm msg stk fields))
    (hdate : ∀ i t, P (.date i t))
    (hregexp : ∀ i s f, P (.regexp i s f))
    (harraybuffer : ∀ i bs, P (.arraybuffer i bs))
    (hfunc : ∀ i, P (.func i))
    (hobjWithClone : ∀ i r, P (.objWithClone i r))
    (hclassInstance : ∀ i m, P (.classInstance i m))
    (hobj : ∀ i fields, (∀ p ∈ fields, P (Prod.snd p)) → P (.obj i fields))
    (v : JSValue) : P v := by
  have key : ∀ (k : Nat) (v : JSValue), sizeOf v ≤ k → P v := by
    intro k
    induction k with
    | zero =>
      intro v hv
      exfalso
      cases v <;> simp at hv
    | succ k ih =>
      intro v hv
      cases v with
      | null => exact hnull
      | undef => exact hundef
      | str s => exact hstr s
      | num i => exact hnum i
      | bigint i => exact hbigint i
      | sym i => exact hsym i
      | bool b => exact hbool b
      | arr i items =>
        refine harr i items (fun w hw => ih w ?_)
        have h1 := List.sizeOf_lt_of_mem hw
        have h2 : sizeOf items < sizeOf (JSValue.arr i items) := by simp
        omega
      | jsmap i entries =>
        refine hjsmap i entries (fun p hp => ?_)
        have h1 := List.sizeOf_lt_of_mem hp
        have h2 : sizeOf entries < sizeOf (JSValue.jsmap i entries) := by simp
        have h3 : sizeOf (Prod.fst p) < sizeOf p ∧ sizeOf (Prod.snd p) < sizeOf p := by
          cases p with
          | mk a b => simp; omega
        exact ⟨ih (Prod.fst p) (by omega), ih (Prod.snd p) (by omega)⟩
      | jsset i items =>
        refine hjsset i items (fun w hw => ih w ?_)
        have h1 := List.sizeOf_lt_of_mem hw
        have h2 : sizeOf items < sizeOf (JSValue.jsset i items) := by simp
        omega
      | jserror i nm msg stk fields =>
        refine hjserror i nm msg stk fields (fun p hp => ih (Prod.snd p) ?_)
        have h1 := List.sizeOf_lt_of_mem hp
        have h2 : sizeOf fields < sizeOf (JSValue.jserror i nm msg stk fields) := by simp
        have h3 : sizeOf (Prod.snd p) < sizeOf p := by
          cases p with
          | mk a b => simp
        omega
      | date i t => exact hdate i t
      | regexp i s f => exact hregexp i s f
      | arraybuffer i bs => exact harraybuffer i bs
      | func i => exact hfunc i
      | objWithClone i r => exact hobjWithClone i r
      | classInstance i m => exact hclassInstance i m
      | obj i fields =>
        refine hobj i fields (fun p hp => ih (Prod.snd p) ?_)
        have h1 := List.sizeOf_lt_of_mem hp
        have h2 : sizeOf fields < sizeOf (JSValue.obj i fields) := by simp
        have h3 : sizeOf (Prod.snd p) < sizeOf p := by
          cases p with
          | mk a b => simp
        omega
  exact key (sizeOf v) v le_rfl

/-- Values whose errors are already in clone normal form are fixed points of
`normErr` (list form). -/
theorem normErrList_eq_of (l : List JSValue)
    (ih : ∀ v ∈ l, errNormal v = true → normErr v = v)
    (h : errNormalList l = true) : normErrList l = l := by
  induction l with
  | nil => rfl
  | cons v vs IH =>
    simp only [errNormalList, Bool.and_eq_true] at h
    simp only [normErrList]
    rw [ih v (by simp) h.1, IH (fun w hw hn => ih w (by simp [hw]) hn) h.2]

/-- Values whose errors are already in clone normal form are fixed points of
`normErr` (pair-list form). -/
theorem normErrPairs_eq_of (l : List (JSValue × JSValue))
    (ih : ∀ p ∈ l, (errNormal (Prod.fst p) = true → normErr (Prod.fst p) = Prod.fst p) ∧
      (errNormal (Prod.snd p) = true → normErr (Prod.snd p) = Prod.snd p))
    (h : errNormalPairs l = true) : normErrPairs l = l := by
  induction l with
  | nil => rfl
  | cons p rest IH =>
    obtain ⟨k, v⟩ := p
    simp only [errNormalPairs, Bool.and_eq_true] at h
    simp only [normErrPairs]
    rw [(ih (k, v) (by simp)).1 h.1.1, (ih (k, v) (by simp)).2 h.1.2,
      IH (fun q hq => ih q (by simp [hq])) h.2]

/-- Values whose errors are already in clone normal form are fixed points of
`normErr` (field-list form). -/
theorem normErrFields_eq_of (l : List (String × JSValue))
    (ih : ∀ p ∈ l, errNormal (Prod.snd p) = true → normErr (Prod.snd p) = Prod.snd p)
    (h : errNormalFields l = true) : normErrFields l = l := by
  induction l with
  | nil => rfl
  | cons p rest IH =>
    obtain ⟨k, v⟩ := p
    simp only [errNormalFields, Bool.and_eq_true] at h
    simp only [normErrFields]
    rw [ih (k, v) (by simp) h.1, IH (fun q hq => ih q (by simp [hq])) h.2]

/-- Values whose errors are already in clone normal form (as every clone output
is) are fixed points of the error-normalization map. -/
theorem normErr_eq_of_errNormal (v : JSValue) (h : errNormal v = true) : normErr v = v := by
  induction v using jsInduction with
  | hnull => rfl
  | hundef => rfl
  | hstr s => rfl
  | hnum i => rfl
  | hbigint i => rfl
  | hsym i => rfl
  | hbool b => rfl
  | harr i items ih =>
    simp only [errNormal] at h
    simp only [normErr, normErrList_eq_of items ih h]
  | hjsmap i entries ih =>
    simp only [errNormal] at h
    simp only [normErr, normErrPairs_eq_of entries ih h]
  | hjsset i items ih =>
    simp only [errNormal] at h
    simp only [normErr, normErrList_eq_of items ih h]
  | hjserror i nm msg stk fields ih =>
    simp only [errNormal, Bool.and_eq_true, beq_iff_eq, List.isEmpty_iff,
      Option.isSome_iff_exists] at h
    obtain ⟨⟨hnm, s, hs⟩, hf⟩ := h
    subst hnm hf
    simp only [normErr, hs, Option.getD_some]
  | hdate i t => rfl
  | hregexp i s f => rfl
  | harraybuffer i bs => rfl
  | hfunc i => rfl
  | hobjWithClone i r => rfl
  | hclassInstance i m => rfl
  | hobj i fields ih =>
    simp only [errNormal] at h
    simp only [normErr, normErrFields_eq_of fields ih h]

/-- Identity-shared node identities are among all identities (list form). -/
theorem opaqueIdsList_subset (l : List JSValue)
    (ih : ∀ v ∈ l, ∀ i ∈ opaqueIds v, i ∈ allIds v) :
    ∀ i ∈ opaqueIdsList l, i ∈ allIdsList l := by
  induction l with
  | nil => simp [opaqueIdsList, allIdsList]
  | cons v vs IH =>
    intro i hi
    simp only [opaqueIdsList, List.mem_append] at hi
    simp only [allIdsList, List.mem_append]
    rcases hi with hi | hi
    · exact Or.inl (ih v (by simp) i hi)
    · exact Or.inr (IH (fun w hw => ih w (by simp [hw])) i hi)

/-- Identity-shared node identities are among all identities (pair-list form). -/
theorem opaqueIdsPairs_subset (l : List (JSValue × JSValue))
    (ih : ∀ p ∈ l, (∀ i ∈ opaqueIds (Prod.fst p), i ∈ allIds (Prod.fst p)) ∧
      (∀ i ∈ opaqueIds (Prod.snd p), i ∈ allIds (Prod.snd p))) :
    ∀ i ∈ opaqueIdsPairs l, i ∈ allIdsPairs l := by
  induction l with
  | nil => simp [opaqueIdsPairs, allIdsPairs]
  | cons p rest IH =>
    obtain ⟨k, v⟩ := p
    intro i hi
    simp only [opaqueIdsPairs, List.mem_append] at hi
    simp only [allIdsPairs, List.mem_append]
    rcases hi with (hi | hi) | hi
    · exact Or.inl (Or.inl ((ih (k, v) (by simp)).1 i hi))
    · exact Or.inl (Or.inr ((ih (k, v) (by simp)).2 i hi))
    · exact Or.inr (IH (fun q hq => ih q (by simp [hq])) i hi)

/-- Identity-shared node identities are among all identities (field-list form). -/
theorem opaqueIdsFields_subset (l : List (String × JSValue))
    (ih : ∀ p ∈ l, ∀ i ∈ opaqueIds (Prod.snd p), i ∈ allIds (Prod.snd p)) :
    ∀ i ∈ opaqueIdsFields l, i ∈ allIdsFields l := by
  induction l with
  | nil => simp [opaqueIdsFields, allIdsFields]
  | cons p rest IH =>
    obtain ⟨k, v⟩ := p
    intro i hi
    simp only [opaqueIdsFields, List.mem_append] at hi
    simp only [allIdsFields, List.mem_append]
    rcases hi with hi | hi
    · exact Or.inl (ih (k, v) (by simp) i hi)
    · exact Or.inr (IH (fun q hq => ih q (by simp [hq])) i hi)

/-- What one successful `safeClone` run guarantees, relating input `v` with
fresh counter `n` to output `w` with final counter `n2`: the counter grows;
the output's content is the input's with every error degraded to a base error
(`normErr`); the output has no custom clone operations and its errors are in
clone normal form; every identity in the output is either an identity-shared
node of the input or freshly allocated; identity-shared nodes of the output
come from the input; a cloneable top node is rebuilt under a fresh identity;
a non-cloneable top value is returned as-is without consuming the counter. -/
structure CloneOk (v : JSValue) (n : Nat) (w : JSValue) (n2 : Nat) : Prop where
  le : n ≤ n2
  content : strip w = strip (normErr v)
  noClone : noCloneOp w = true
  normal : errNormal w = true
  fresh : ∀ i ∈ allIds w, i ∈ opaqueIds v ∨ (n ≤ i ∧ i < n2)
  sharedSub : ∀ i ∈ opaqueIds w, i ∈ opaqueIds v
  top : cloneableTop v = true → ∃ j, topId w = some j ∧ n ≤ j ∧ j < n2 ∧ cloneableTop w = true
  ident : cloneableTop v = false → w = v ∧ n2 = n

/-- `CloneOk`, element-wise for an array's items. -/
structure CloneOkList (vs : List JSValue) (n : Nat) (ws : List JSValue) (n2 : Nat) : Prop where
  le : n ≤ n2
  content : stripList ws = stripList (normErrList vs)
  noClone : noCloneOpList ws = true
  normal : errNormalList ws = true
  fresh : ∀ i ∈ allIdsList ws, i ∈ opaqueIdsList vs ∨ (n ≤ i ∧ i < n2)
  sharedSub : ∀ i ∈ opaqueIdsList ws, i ∈ opaqueIdsList vs

/-- `CloneOk`, entry-wise for a map's entries. -/
structure CloneOkPairs (vs : List (JSValue × JSValue)) (n : Nat)
    (ws : List (JSValue × JSValue)) (n2 : Nat) : Prop where
  le : n ≤ n2
  content : stripPairs ws = stripPairs (normErrPairs vs)
  noClone : noCloneOpPairs ws = true
  normal : errNormalPairs ws = true
  fresh : ∀ i ∈ allIdsPairs ws, i ∈ opaqueIdsPairs vs ∨ (n ≤ i ∧ i < n2)
  sharedSub : ∀ i ∈ opaqueIdsPairs ws, i ∈ opaqueIdsPairs vs

/-- `CloneOk`, field-wise for a plain object's fields. -/
structure CloneOkFields (vs : List (String × JSValue)) (n : Nat)
    (ws : List (String × JSValue)) (n2 : Nat) : Prop where
  le : n ≤ n2
  content : stripFields ws = stripFields (normErrFields vs)
  noClone : noCloneOpFields ws = true
  normal : errNormalFields ws = true
  fresh : ∀ i ∈ allIdsFields ws, i ∈ opaqueIdsFields vs ∨ (n ≤ i ∧ i < n2)
  sharedSub : ∀ i ∈ opaqueIdsFields ws, i ∈ opaqueIdsFields vs

/-- Every identity of an identity-shared (uncloneable) node of a value is a
heap identity of the value. -/
theorem opaqueIds_subset_allIds (v : JSValue) : ∀ i ∈ opaqueIds v, i ∈ allIds v := by
  induction v using jsInduction with
  | harr i items ih =>
    intro j hj
    simp only [opaqueIds] at hj
    simp only [allIds, List.mem_cons]
    exact Or.inr (opaqueIdsList_subset items ih j hj)
  | hjsmap i entries ih =>
    intro j hj
    simp only [opaqueIds] at hj
    simp only [allIds, List.mem_cons]
    exact Or.inr (opaqueIdsPairs_subset entries ih j hj)
  | hjsset i items ih =>
    intro j hj
    simp only [opaqueIds] at hj
    simp only [allIds, List.mem_cons]
    exact Or.inr (opaqueIdsList_subset items ih j hj)
  | hjserror i nm msg stk fields ih =>
    intro j hj
    simp only [opaqueIds] at hj
    simp only [allIds, List.mem_cons]
    exact Or.inr (opaqueIdsFields_subset fields ih j hj)
  | hobj i fields ih =>
    intro j hj
    simp only [opaqueIds] at hj
    simp only [allIds, List.mem_cons]
    exact Or.inr (opaqueIdsFields_subset fields ih j hj)
  | hnull => simp [opaqueIds]
  | hundef => simp [opaqueIds]
  | hstr s => simp [opaqueIds]
  | hnum i => simp [opaqueIds]
  | hbigint i => simp [opaqueIds]
  | hsym i => simp [opaqueIds, allIds]
  | hbool b => simp [opaqueIds]
  | hdate i t => simp [opaqueIds]
  | hregexp i s f => simp [opaqueIds]
  | harraybuffer i bs => simp [opaqueIds]
  | hfunc i => simp [opaqueIds, allIds]
  | hobjWithClone i r => simp [opaqueIds, allIds]
  | hclassInstance i m => simp [opaqueIds, allIds]

/-- Clone characterization for an array's items, given the characterization of
each item. -/
theorem safeCloneList_ok (vs : List JSValue)
    (IH : ∀ v ∈ vs, ∀ m, noCloneOp v = true →
      ∃ w m2, safeClone v m = .ok (w, m2) ∧ CloneOk v m w m2)
    (n : Nat) (h : noCloneOpList vs = true) :
    ∃ ws n2, safeCloneList vs n = .ok (ws, n2) ∧ CloneOkList vs n ws n2 := by
  induction vs generalizing n with
  | nil =>
    refine ⟨[], n, rfl, ⟨le_rfl, rfl, rfl, rfl, ?_, ?_⟩⟩
    · intro i hi; simp [allIdsList] at hi
    · intro i hi; simp [opaqueIdsList] at hi
  | cons v vs IHl =>
    simp only [noCloneOpList, Bool.and_eq_true] at h
    obtain ⟨w, m2, hw, C⟩ := IH v (by simp) n h.1
    obtain ⟨ws, n3, hws, L⟩ := IHl (fun u hu => IH u (by simp [hu])) m2 h.2
    refine ⟨w :: ws, n3, by simp [safeCloneList, hw, hws], ?_⟩
    refine ⟨le_trans C.le L.le, ?_, ?_, ?_, ?_, ?_⟩
    · simp only [stripList, normErrList, C.content, L.content]
    · simp only [noCloneOpList, Bool.and_eq_true]; exact ⟨C.noClone, L.noClone⟩
    · simp only [errNormalList, Bool.and_eq_true]; exact ⟨C.normal, L.normal⟩
    · intro i hi
      simp only [allIdsList, List.mem_append] at hi
      simp only [opaqueIdsList, List.mem_append]
      rcases hi with hi | hi
      · rcases C.fresh i hi with hop | ⟨h1, h2⟩
        · exact Or.inl (Or.inl hop)
        · exact Or.inr ⟨h1, lt_of_lt_of_le h2 L.le⟩
      · rcases L.fresh i hi with hop | ⟨h1, h2⟩
        · exact Or.inl (Or.inr hop)
        · exact Or.inr ⟨le_trans C.le h1, h2⟩
    · intro i hi
      simp only [opaqueIdsList, List.mem_append] at hi ⊢
      rcases hi with hi | hi
      · exact Or.inl (C.sharedSub i hi)
      · exact Or.inr (L.sharedSub i hi)

/-- Clone characterization for a map's entries, given the characterization of
each key and value. -/
theorem safeClonePairs_ok (vs : List (JSValue × JSValue))
    (IH : ∀ p ∈ vs, (∀ m, noCloneOp (Prod.fst p) = true →
        ∃ w m2, safeClone (Prod.fst p) m = .ok (w, m2) ∧ CloneOk (Prod.fst p) m w m2) ∧
      (∀ m, noCloneOp (Prod.snd p) = true →
        ∃ w m2, safeClone (Prod.snd p) m = .ok (w, m2) ∧ CloneOk (Prod.snd p) m w m2))
    (n : Nat) (h : noCloneOpPairs vs = true) :
    ∃ ws n2, safeClonePairs vs n = .ok (ws, n2) ∧ CloneOkPairs vs n ws n2 := by
  induction vs generalizing n with
  | nil =>
    refine ⟨[], n, rfl, ⟨le_rfl, rfl, rfl, rfl, ?_, ?_⟩⟩
    · intro i hi; simp [allIdsPairs] at hi
    · intro i hi; simp [opaqueIdsPairs] at hi
  | cons p rest IHl =>
    obtain ⟨k, v⟩ := p
    simp only [noCloneOpPairs, Bool.and_eq_true] at h
    obtain ⟨k2, m2, hk, CK⟩ := (IH (k, v) (by simp)).1 n h.1.1
    obtain ⟨v2, m3, hv, CV⟩ := (IH (k, v) (by simp)).2 m2 h.1.2
    obtain ⟨ws, n4, hws, L⟩ := IHl (fun q hq => IH q (by simp [hq])) m3 h.2
    refine ⟨(k2, v2) :: ws, n4, by simp [safeClonePairs, hk, hv, hws], ?_⟩
    refine ⟨le_trans CK.le (le_trans CV.le L.le), ?_, ?_, ?_, ?_, ?_⟩
    · simp only [stripPairs, normErrPairs, CK.content, CV.content, L.content]
    · simp only [noCloneOpPairs, Bool.and_eq_true]
      exact ⟨⟨CK.noClone, CV.noClone⟩, L.noClone⟩
    · simp only [errNormalPairs, Bool.and_eq_true]
      exact ⟨⟨CK.normal, CV.normal⟩, L.normal⟩
    · intro i hi
      simp only [allIdsPairs, List.mem_append] at hi
      simp only [opaqueIdsPairs, List.mem_append]
      rcases hi with (hi | hi) | hi
      · rcases CK.fresh i hi with hop | ⟨h1, h2⟩
        · exact Or.inl (Or.inl (Or.inl hop))
        · exact Or.inr ⟨h1, lt_of_lt_of_le h2 (le_trans CV.le L.le)⟩
      · rcases CV.fresh i hi with hop | ⟨h1, h2⟩
        · exact Or.inl (Or.inl (Or.inr hop))
        · exact Or.inr ⟨le_trans CK.le h1, lt_of_lt_of_le h2 L.le⟩
      · rcases L.fresh i hi with hop | ⟨h1, h2⟩
        · exact Or.inl (Or.inr hop)
        · exact Or.inr ⟨le_trans CK.le (le_trans CV.le h1), h2⟩
    · intro i hi
      simp only [opaqueIdsPairs, List.mem_append] at hi ⊢
      rcases hi with (hi | hi) | hi
      · exact Or.inl (Or.inl (CK.sharedSub i hi))
      · exact Or.inl (Or.inr (CV.sharedSub i hi))
      · exact Or.inr (L.sharedSub i hi)

/-- Clone characterization for a plain object's fields, given the
characterization of each field value. -/
theorem safeCloneFields_ok (vs : List (String × JSValue))
    (IH : ∀ p ∈ vs, ∀ m, noCloneOp (Prod.snd p) = true →
      ∃ w m2, safeClone (Prod.snd p) m = .ok (w, m2) ∧ CloneOk (Prod.snd p) m w m2)
    (n : Nat) (h : noCloneOpFields vs = true) :
    ∃ ws n2, safeCloneFields vs n = .ok (ws, n2) ∧ CloneOkFields vs n ws n2 := by
  induction vs generalizing n with
  | nil =>
    refine ⟨[], n, rfl, ⟨le_rfl, rfl, rfl, rfl, ?_, ?_⟩⟩
    · intro i hi; simp [allIdsFields] at hi
    · intro i hi; simp [opaqueIdsFields] at hi
  | cons p rest IHl =>
    obtain ⟨k, v⟩ := p
    simp only [noCloneOpFields, Bool.and_eq_true] at h
    obtain ⟨v2, m2, hv, C⟩ := IH (k, v) (by simp) n h.1
    obtain ⟨ws, n3, hws, L⟩ := IHl (fun q hq => IH q (by simp [hq])) m2 h.2
    refine ⟨(k, v2) :: ws, n3, by simp [safeCloneFields, hv, hws], ?_⟩
    refine ⟨le_trans C.le L.le, ?_, ?_, ?_, ?_, ?_⟩
    · simp only [stripFields, normErrFields, C.content, L.content]
    · simp only [noCloneOpFields, Bool.and_eq_true]; exact ⟨C.noClone, L.noClone⟩
    · simp only [errNormalFields, Bool.and_eq_true]; exact ⟨C.normal, L.normal⟩
    · intro i hi
      simp only [allIdsFields, List.mem_append] at hi
      simp only [opaqueIdsFields, List.mem_append]
      rcases hi with hi | hi
      · rcases C.fresh i hi with hop | ⟨h1, h2⟩
        · exact Or.inl (Or.inl hop)
        · exact Or.inr ⟨h1, lt_of_lt_of_le h2 L.le⟩
      · rcases L.fresh i hi with hop | ⟨h1, h2⟩
        · exact Or.inl (Or.inr hop)
        · exact Or.inr ⟨le_trans C.le h1, h2⟩
    · intro i hi
      simp only [opaqueIdsFields, List.mem_append] at hi ⊢
      rcases hi with hi | hi
      · exact Or.inl (C.sharedSub i hi)
      · exact Or.inr (L.sharedSub i hi)

/-- Master characterization of `safeClone`: on a value with no custom clone
operations, cloning succeeds from any fresh counter and satisfies `CloneOk`. -/
theorem safeClone_ok (v : JSValue) : ∀ n, noCloneOp v = true →
    ∃ w n2, safeClone v n = .ok (w, n2) ∧ CloneOk v n w n2 := by
  induction v using jsInduction with
  | hnull =>
    intro n _
    refine ⟨.null, n, rfl, ⟨le_rfl, rfl, rfl, rfl, ?_, ?_, ?_, fun _ => ⟨rfl, rfl⟩⟩⟩
    · intro i hi; simp [allIds] at hi
    · intro i hi; simp [opaqueIds] at hi
    · intro htop; simp [cloneableTop] at htop
  | hundef =>
    intro n _
    refine ⟨.undef, n, rfl, ⟨le_rfl, rfl, rfl, rfl, ?_, ?_, ?_, fun _ => ⟨rfl, rfl⟩⟩⟩
    · intro i hi; simp [allIds] at hi
    · intro i hi; simp [opaqueIds] at hi
    · intro htop; simp [cloneableTop] at htop
  | hstr s =>
    intro n _
    refine ⟨.str s, n, rfl, ⟨le_rfl, rfl, rfl, rfl, ?_, ?_, ?_, fun _ => ⟨rfl, rfl⟩⟩⟩
    · intro i hi; simp [allIds] at hi
    · intro i hi; simp [opaqueIds] at hi
    · intro htop; simp [cloneableTop] at htop
  | hnum i =>
    intro n _
    refine ⟨.num i, n, rfl, ⟨le_rfl, rfl, rfl, rfl, ?_, ?_, ?_, fun _ => ⟨rfl, rfl⟩⟩⟩
    · intro j hj; simp [allIds] at hj
    · intro j hj; simp [opaqueIds] at hj
    · intro htop; simp [cloneableTop] at htop
  | hbigint i =>
    intro n _
    refine ⟨.bigint i, n, rfl, ⟨le_rfl, rfl, rfl, rfl, ?_, ?_, ?_, fun _ => ⟨rfl, rfl⟩⟩⟩
    · intro j hj; simp [allIds] at hj
    · intro j hj; simp [opaqueIds] at hj
    · intro htop; simp [cloneableTop] at htop
  | hsym i =>
    intro n _
    refine ⟨.sym i, n, rfl, ⟨le_rfl, rfl, rfl, rfl, ?_, ?_, ?_, fun _ => ⟨rfl, rfl⟩⟩⟩
    · intro j hj
      simp only [allIds, List.mem_singleton] at hj
      subst hj
      exact Or.inl (by simp [opaqueIds])
    · intro j hj; exact hj
    · intro htop; simp [cloneableTop] at htop
  | hbool b =>
    intro n _
    refine ⟨.bool b, n, rfl, ⟨le_rfl, rfl, rfl, rfl, ?_, ?_, ?_, fun _ => ⟨rfl, rfl⟩⟩⟩
    · intro j hj; simp [allIds] at hj
    · intro j hj; simp [opaqueIds] at hj
    · intro htop; simp [cloneableTop] at htop
  | harr i items ih =>
    intro n h
    simp only [noCloneOp] at h
    obtain ⟨ws, n2, hws, L⟩ := safeCloneList_ok items ih n h
    refine ⟨.arr n2 ws, n2 + 1, by simp [safeClone, hws], ?_⟩
    refine ⟨Nat.le_succ_of_le L.le, ?_, ?_, ?_, ?_, ?_, ?_, ?_⟩
    · simp only [strip, normErr, L.content]
    · simpa [noCloneOp] using L.noClone
    · simpa [errNormal] using L.normal
    · intro j hj
      simp only [allIds, List.mem_cons] at hj
      rcases hj with rfl | hj
      · exact Or.inr ⟨L.le, by omega⟩
      · rcases L.fresh j hj with hop | ⟨h1, h2⟩
        · exact Or.inl (by simpa [opaqueIds] using hop)
        · exact Or.inr ⟨h1, by omega⟩
    · intro j hj
      simp only [opaqueIds] at hj ⊢
      exact L.sharedSub j hj
    · intro _
      exact ⟨n2, rfl, L.le, by omega, rfl⟩
    · intro hfalse; simp [cloneableTop] at hfalse
  | hjsmap i entries ih =>
    intro n h
    simp only [noCloneOp] at h
    obtain ⟨ws, n2, hws, L⟩ := safeClonePairs_ok entries ih n h
    refine ⟨.jsmap n2 ws, n2 + 1, by simp [safeClone, hws], ?_⟩
    refine ⟨Nat.le_succ_of_le L.le, ?_, ?_, ?_, ?_, ?_, ?_, ?_⟩
    · simp only [strip, normErr, L.content]
    · simpa [noCloneOp] using L.noClone
    · simpa [errNormal] using L.normal
    · intro j hj
      simp only [allIds, List.mem_cons] at hj
      rcases hj with rfl | hj
      · exact Or.inr ⟨L.le, by omega⟩
      · rcases L.fresh j hj with hop | ⟨h1, h2⟩
        · exact Or.inl (by simpa [opaqueIds] using hop)
        · exact Or.inr ⟨h1, by omega⟩
    · intro j hj
      simp only [opaqueIds] at hj ⊢
      exact L.sharedSub j hj
    · intro _
      exact ⟨n2, rfl, L.le, by omega, rfl⟩
    · intro hfalse; simp [cloneableTop] at hfalse
  | hjsset i items ih =>
    intro n h
    simp only [noCloneOp] at h
    obtain ⟨ws, n2, hws, L⟩ := safeCloneList_ok items ih n h
    refine ⟨.jsset n2 ws, n2 + 1, by simp [safeClone, hws], ?_⟩
    refine ⟨Nat.le_succ_of_le L.le, ?_, ?_, ?_, ?_, ?_, ?_, ?_⟩
    · simp only [strip, normErr, L.content]
    · simpa [noCloneOp] using L.noClone
    · simpa [errNormal] using L.normal
    · intro j hj
      simp only [allIds, List.mem_cons] at hj
      rcases hj with rfl | hj
      · exact Or.inr ⟨L.le, by omega⟩
      · rcases L.fresh j hj with hop | ⟨h1, h2⟩
        · exact Or.inl (by simpa [opaqueIds] using hop)
        · exact Or.inr ⟨h1, by omega⟩
    · intro j hj
      simp only [opaqueIds] at hj ⊢
      exact L.sharedSub j hj
    · intro _
      exact ⟨n2, rfl, L.le, by omega, rfl⟩
    · intro hfalse; simp [cloneableTop] at hfalse
  | hjserror i nm msg stk fields ih =>
    intro n _
    refine ⟨.jserror n "Error" msg (some (stk.getD "No Stack Found")) [], n + 1, rfl, ?_⟩
    refine ⟨by omega, rfl, rfl, by simp [errNormal], ?_, ?_, ?_, ?_⟩
    · intro j hj
      simp only [allIds, allIdsFields, List.mem_singleton] at hj
      subst hj
      exact Or.inr ⟨le_rfl, by omega⟩
    · intro j hj
      simp [opaqueIds, opaqueIdsFields] at hj
    · intro _
      exact ⟨n, rfl, le_rfl, by omega, rfl⟩
    · intro hfalse; simp [cloneableTop] at hfalse
  | hdate i t =>
    intro n _
    refine ⟨.date n t, n + 1, rfl, ?_⟩
    refine ⟨by omega, rfl, rfl, rfl, ?_, ?_, ?_, ?_⟩
    · intro j hj
      simp only [allIds, List.mem_singleton] at hj
      subst hj
      exact Or.inr ⟨le_rfl, by omega⟩
    · intro j hj; simp [opaqueIds] at hj
    · intro _
      exact ⟨n, rfl, le_rfl, by omega, rfl⟩
    · intro hfalse; simp [cloneableTop] at hfalse
  | hregexp i s f =>
    intro n _
    refine ⟨.regexp n s f, n + 1, rfl, ?_⟩
    refine ⟨by omega, rfl, rfl, rfl, ?_, ?_, ?_, ?_⟩
    · intro j hj
      simp only [allIds, List.mem_singleton] at hj
      subst hj
      exact Or.inr ⟨le_rfl, by omega⟩
    · intro j hj; simp [opaqueIds] at hj
    · intro _
      exact ⟨n, rfl, le_rfl, by omega, rfl⟩
    · intro hfalse; simp [cloneableTop] at hfalse
  | harraybuffer i bs =>
    intro n _
    refine ⟨.arraybuffer n bs, n + 1, rfl, ?_⟩
    refine ⟨by omega, rfl, rfl, rfl, ?_, ?_, ?_, ?_⟩
    · intro j hj
      simp only [allIds, List.mem_singleton] at hj
      subst hj
      exact Or.inr ⟨le_rfl, by omega⟩
    · intro j hj; simp [opaqueIds] at hj
    · intro _
      exact ⟨n, rfl, le_rfl, by omega, rfl⟩
    · intro hfalse; simp [cloneableTop] at hfalse
  | hfunc i =>
    intro n _
    refine ⟨.func i, n, rfl, ⟨le_rfl, rfl, rfl, rfl, ?_, ?_, ?_, fun _ => ⟨rfl, rfl⟩⟩⟩
    · intro j hj
      simp only [allIds, List.mem_singleton] at hj
      subst hj
      exact Or.inl (by simp [opaqueIds])
    · intro j hj; exact hj
    · intro htop; simp [cloneableTop] at htop
  | hobjWithClone i r =>
    intro n h
    simp [noCloneOp] at h
  | hclassInstance i m =>
    intro n _
    refine ⟨.classInstance i m, n, rfl, ⟨le_rfl, rfl, rfl, rfl, ?_, ?_, ?_, fun _ => ⟨rfl, rfl⟩⟩⟩
    · intro j hj
      simp only [allIds, List.mem_singleton] at hj
      subst hj
      exact Or.inl (by simp [opaqueIds])
    · intro j hj; exact hj
    · intro htop; simp [cloneableTop] at htop
  | hobj i fields ih =>
    intro n h
    simp only [noCloneOp] at h
    obtain ⟨ws, n2, hws, L⟩ := safeCloneFields_ok fields ih n h
    refine ⟨.obj n2 ws, n2 + 1, by simp [safeClone, hws], ?_⟩
    refine ⟨Nat.le_succ_of_le L.le, ?_, ?_, ?_, ?_, ?_, ?_, ?_⟩
    · simp only [strip, normErr, L.content]
    · simpa [noCloneOp] using L.noClone
    · simpa [errNormal] using L.normal
    · intro j hj
      simp only [allIds, List.mem_cons] at hj
      rcases hj with rfl | hj
      · exact Or.inr ⟨L.le, by omega⟩
      · rcases L.fresh j hj with hop | ⟨h1, h2⟩
        · exact Or.inl (by simpa [opaqueIds] using hop)
        · exact Or.inr ⟨h1, by omega⟩
    · intro j hj
      simp only [opaqueIds] at hj ⊢
      exact L.sharedSub j hj
    · intro _
      exact ⟨n2, rfl, L.le, by omega, rfl⟩
    · intro hfalse; simp [cloneableTop] at hfalse

/-- The top identity of a heap value is one of its identities. -/
theorem topId_mem_allIds (v : JSValue) : ∀ j, topId v = some j → j ∈ allIds v := by
  cases v <;> intro j hj <;> simp [topId] at hj <;> simp [allIds, hj]

/-- Outcome of one listener invocation, as inspected by `Observable.notify`:
the listener returned the literal string `"STOP"`, returned anything else
(`void` or another value), or threw. Listeners are modelled as pure functions
of the delivered value; a synchronous listener's body runs to completion
within the dispatch (the async fire-and-forget wrapper runs it synchronously
up to its first suspension, and the claims under study concern synchronous
listeners). -/
inductive LRes : Type where
  | next : LRes
  | stop : LRes
  | fault : LRes

/-- A registered listener: the callback function together with the identity of
the underlying function object. Subscribing the same function twice yields two
entries with the same `id`; `Observable.unsubscribe` removes by function
reference (`listener !== cb`), modelled as removal by `id`. -/
structure Listener where
  id : Nat
  fn : JSValue → LRes

/-- State of an `Observable` (the Value Cell): the stored value `_data`, the
ordered listener list, the fresh-identity allocator shared by its clone calls,
the console diagnostic channel, and an observation trace recording each
listener invocation as (listener id, delivered value). -/
structure ObsState where
  data : JSValue
  listeners : List Listener
  fresh : Nat
  warnings : List String
  trace : List (Nat × JSValue)

/-- Embedding of `Observable.notify`: invokes the listener with `this._data`
(the stored value itself — the source passes `this._data`, not a clone); if
the completed result is `"STOP"`, unsubscribes the listener (removing every
registration of that function); a fault is caught at this dispatch boundary
and logged to the console, leaving the listener list unmodified. The trace
records the invocation and the exact value delivered. -/
def notify (st : ObsState) (l : Listener) : ObsState :=
  let st2 : ObsState := { st with trace := st.trace ++ [(l.id, st.data)] }
  match l.fn st.data with
  | .next => st2
  | .stop => { st2 with listeners := st2.listeners.filter (fun x => x.id != l.id) }
  | .fault => { st2 with warnings := st2.warnings ++ ["Whispr listener threw an error:"] }

/-- Dispatch to every listener of a snapshot in order (the source's
`this.listeners.forEach((listener) => this.notify(listener))`; `forEach`
iterates the array value captured at call time, while an unsubscription
installs a fresh filtered array, so the snapshot is not affected by removals
that happen during the loop). -/
def notifyAll (st : ObsState) (snapshot : List Listener) : ObsState :=
  snapshot.foldl notify st

/-- Embedding of `Observable.set` (the Value Cell's write): stores
`safeClone(data)` and then notifies every currently registered listener.
The source returns the literal `true`; a raised clone failure propagates to
the writer (surfaced as `Except.error`). -/
def obsSet (st : ObsState) (v : JSValue) : Except Unit ObsState :=
  match safeClone v st.fresh with
  | .error e => .error e
  | .ok (w, n2) =>
    let st2 : ObsState := { st with data := w, fresh := n2 }
    .ok (notifyAll st2 st2.listeners)

/-- Embedding of the `Observable.value` getter (the Value Cell's read):
returns `safeClone(this._data)`. -/
def obsValue (st : ObsState) : Except Unit (JSValue × ObsState) :=
  match safeClone st.data st.fresh with
  | .error e => .error e
  | .ok (w, n2) => .ok (w, { st with fresh := n2 })

/-- Embedding of the `Observable` constructor: stores a clone of the initial
value, with no listeners yet. -/
def obsInit (v : JSValue) (n : Nat) : Except Unit ObsState :=
  match safeClone v n with
  | .error e => .error e
  | .ok (w, n2) => .ok ⟨w, [], n2, [], []⟩

/-- Embedding of `Observable.subscribe`: appends the listener and, when
`immediate` (the default), notifies it at once with the current value. -/
def obsSubscribe (st : ObsState) (l : Listener) (immediate : Bool) : ObsState :=
  let st2 : ObsState := { st with listeners := st.listeners ++ [l] }
  if immediate then notify st2 l else st2

/-- Embedding of `Observable.unsubscribe` (the capability returned by
`subscribe`): filters out every registration of the function. -/
def obsUnsubscribe (st : ObsState) (i : Nat) : ObsState :=
  { st with listeners := st.listeners.filter (fun x => x.id != i) }

/-- A `Whispr` handle paired with the liveness information that drives its
Setter Capability: `alive` models whether the handle object is still strongly
reachable (the setter holds only a `WeakRef`, so once the handle is collected
`ref.deref()` yields `undefined`). -/
structure WhisprHandle where
  alive : Bool
  cell : ObsState

/-- Embedding of `Whispr.create`: builds the handle over a fresh cell seeded
with a clone of the initial value. -/
def whisprCreate (v : JSValue) (n : Nat) : Except Unit WhisprHandle :=
  match obsInit v n with
  | .error e => .error e
  | .ok st => .ok ⟨true, st⟩

/-- Embedding of the Setter Capability returned by `Whispr.create`:
`(data) => ref.deref()?.data.set(data) ?? false`. While the handle is alive the
deref succeeds and the cell's `set` runs (returning the literal `true`); once
the handle is dead the optional chain short-circuits and `?? false` yields
`false` with no effect on any state. -/
def whisprSetter (h : WhisprHandle) (v : JSValue) : Except Unit (Bool × WhisprHandle) :=
  if h.alive then
    match obsSet h.cell v with
    | .error e => .error e
    | .ok st2 => .ok (true, ⟨true, st2⟩)
  else
    .ok (false, h)

/-- Transition modelling the garbage collector reclaiming the handle (after
which the setter's weak dereference fails). -/
def whisprDie (h : WhisprHandle) : WhisprHandle := ⟨false, h.cell⟩

/-- State of one `Whispr.wait(cb)` call observed together with its cell: the
cell's stored value and allocator, whether wait's internal listener is still
subscribed, the resolution of the pending promise, and how many times the
predicate `cb` has been evaluated. -/
structure WaitSim where
  data : JSValue
  fresh : Nat
  subscribed : Bool
  resolved : Option JSValue
  predEvals : Nat

/-- Embedding of the body of the listener `wait` installs (Whispr.ts):
`(data) => { if (!data) return; const result = cb(data); if (result === null
|| result === undefined) return; resolve(result); return "STOP"; }`, applied
when a notification delivers the cell's stored value. A falsy stored value
returns before `cb` is evaluated; an absent result returns without resolving;
a present result resolves the promise (a promise keeps its first resolution)
and the returned `"STOP"` unsubscribes the listener. -/
def waitOnNotify (pred : JSValue → Option JSValue) (s : WaitSim) : WaitSim :=
  if !s.subscribed then s
  else if isFalsy s.data then s
  else
    match pred s.data with
    | none => { s with predEvals := s.predEvals + 1 }
    | some r =>
      { s with
        predEvals := s.predEvals + 1
        resolved := some (s.resolved.getD r)
        subscribed := false }

/-- Embedding of `wait`'s installation: `this.subscribe(cb)` uses the default
`immediate = true`, so the listener is registered and immediately notified
with the current stored value. -/
def waitInstall (pred : JSValue → Option JSValue) (v : JSValue) (n : Nat) :
    Except Unit WaitSim :=
  match safeClone v n with
  | .error e => .error e
  | .ok (w, n2) => .ok (waitOnNotify pred ⟨w, n2, true, none, 0⟩)

/-- A write to the waited-on cell: the cell stores a clone of the new value and
the notification delivers the stored value to wait's listener (if still
subscribed). -/
def waitWrite (pred : JSValue → Option JSValue) (s : WaitSim) (v : JSValue) :
    Except Unit WaitSim :=
  match safeClone v s.fresh with
  | .error e => .error e
  | .ok (w, n2) => .ok (waitOnNotify pred { s with data := w, fresh := n2 })

/-- A sequence of interleaved writes to the waited-on cell. -/
def waitWrites (pred : JSValue → Option JSValue) (s : WaitSim) :
    List JSValue → Except Unit WaitSim
  | [] => .ok s
  | v :: vs =>
    match waitWrite pred s v with
    | .error e => .error e
    | .ok s2 => waitWrites pred s2 vs

/-- Replaces the value stored under a key of a source dictionary. -/
def updateField : List (String × JSValue) → String → JSValue → List (String × JSValue)
  | [], _, _ => []
  | (k2, v2) :: rest, k, v =>
    if k2 = k then (k2, v) :: updateField rest k v else (k2, v2) :: updateField rest k v

/-- State of one derivation built by `Whispr.from` over a dictionary of source
handles: the current stored value of each source cell, the derived cell's
stored value, the shared fresh-identity allocator, and an observation trace
recording each recomputation as (the keyed argument dictionary passed to the
combining function, the value the derived cell then stored). -/
structure FromSim where
  sources : List (String × JSValue)
  derived : JSValue
  fresh : Nat
  recombs : List (List (String × JSValue) × JSValue)

/-- Embedding of `from`'s `getValue` helper: reads the *current* `value` of
every source handle (each read is the Value Cell's getter, i.e. a clone of
that source's stored value at this very moment — `from` captures the input
dictionary, not the values) and applies the combining function `cb` to the
keyed results. -/
def getValue (cb : List (String × JSValue) → JSValue) (sources : List (String × JSValue))
    (n : Nat) : Except Unit ((List (String × JSValue) × JSValue) × Nat) :=
  match safeCloneFields sources n with
  | .error e => .error e
  | .ok (args, n2) => .ok ((args, cb args), n2)

/-- Embedding of one write to source `k` of a derivation: the source cell
stores a clone of the new value; its change notification fires the listener
`from` subscribed on that source, `() => set(getValue())`, which recomputes
from all current source values and writes the result (cloned by the derived
cell's `set`) into the derived cell. -/
def writeSource (cb : List (String × JSValue) → JSValue) (s : FromSim) (k : String)
    (v : JSValue) : Except Unit FromSim :=
  match safeClone v s.fresh with
  | .error e => .error e
  | .ok (w, n2) =>
    let newSources := updateField s.sources k w
    match getValue cb newSources n2 with
    | .error e => .error e
    | .ok ((args, d), n3) =>
      match safeClone d n3 with
      | .error e => .error e
      | .ok (d2, n4) =>
        .ok ⟨newSources, d2, n4, s.recombs ++ [(args, d2)]⟩

/-- One dispatch changes neither the stored value nor the allocator, and
appends exactly one trace entry delivering the stored value. -/
theorem notify_base (st : ObsState) (l : Listener) :
    (notify st l).data = st.data ∧ (notify st l).fresh = st.fresh ∧
      (notify st l).trace = st.trace ++ [(l.id, st.data)] := by
  unfold notify
  cases l.fn st.data <;> exact ⟨rfl, rfl, rfl⟩

/-- Dispatching to a snapshot of listeners leaves the stored value and the
allocator unchanged and appends one trace entry per snapshot listener, each
delivering the stored value. -/
theorem notifyAll_base (snapshot : List Listener) (st : ObsState) :
    (notifyAll st snapshot).data = st.data ∧ (notifyAll st snapshot).fresh = st.fresh ∧
      (notifyAll st snapshot).trace =
        st.trace ++ snapshot.map (fun x => (x.id, st.data)) := by
  induction snapshot generalizing st with
  | nil => exact ⟨rfl, rfl, by simp [notifyAll]⟩
  | cons l rest IH =>
    have hstep : notifyAll st (l :: rest) = notifyAll (notify st l) rest := by
      simp [notifyAll]
    obtain ⟨hd, hf, ht⟩ := notify_base st l
    obtain ⟨hd2, hf2, ht2⟩ := IH (notify st l)
    refine ⟨by rw [hstep, hd2, hd], by rw [hstep, hf2, hf], ?_⟩
    rw [hstep, ht2, ht, hd]
    simp

/-- A registered listener survives one dispatch to `x` unless `x` shares its
function identity and returned `"STOP"`. -/
theorem notify_mem (st : ObsState) (x l : Listener) (hl : l ∈ st.listeners)
    (hid : x.id = l.id → x.fn st.data ≠ .stop) : l ∈ (notify st x).listeners := by
  unfold notify
  cases hres : x.fn st.data with
  | next => exact hl
  | fault => exact hl
  | stop =>
    simp only [List.mem_filter]
    refine ⟨hl, ?_⟩
    simp only [bne_iff_ne, ne_eq]
    intro hx
    exact hid hx.symm hres

/-- A registered listener survives a whole dispatch round in which no listener
sharing its function identity ever returns `"STOP"`. -/
theorem notifyAll_mem (snapshot : List Listener) (st : ObsState) (l : Listener)
    (hl : l ∈ st.listeners)
    (hid : ∀ x ∈ snapshot, x.id = l.id → ∀ u, x.fn u ≠ .stop) :
    l ∈ (notifyAll st snapshot).listeners := by
  induction snapshot generalizing st with
  | nil => exact hl
  | cons x rest IH =>
    have hstep : notifyAll st (x :: rest) = notifyAll (notify st x) rest := by
      simp [notifyAll]
    rw [hstep]
    exact IH (notify st x)
      (notify_mem st x l hl (fun hx => hid x (by simp) hx st.data))
      (fun y hy => hid y (by simp [hy]))

/-- The console message `Observable.notify` logs when a listener throws. -/
def faultMsg : String := "Whispr listener threw an error:"

/-- Dispatching to a snapshot appends one console diagnostic per faulting
invocation, and nothing else. -/
theorem notifyAll_warnings (snapshot : List Listener) (st : ObsState) :
    (notifyAll st snapshot).warnings = st.warnings ++
      snapshot.filterMap (fun x =>
        match x.fn st.data with
        | .fault => some faultMsg
        | _ => none) := by
  induction snapshot generalizing st with
  | nil => simp [notifyAll]
  | cons x rest IH =>
    have hstep : notifyAll st (x :: rest) = notifyAll (notify st x) rest := by
      simp [notifyAll]
    have hd := (notify_base st x).1
    rw [hstep, IH (notify st x), hd]
    unfold notify
    cases hres : x.fn st.data <;> simp [List.filterMap_cons, hres, faultMsg]

/-- One dispatch never adds listeners: the resulting list is a sublist of the
previous one. -/
theorem notify_listeners_subset (st : ObsState) (x l : Listener)
    (hl : l ∈ (notify st x).listeners) : l ∈ st.listeners := by
  unfold notify at hl
  cases hres : x.fn st.data <;> rw [hres] at hl
  · exact hl
  · exact (List.mem_filter.mp hl).1
  · exact hl

/-- A dispatch round never adds listeners. -/
theorem notifyAll_listeners_subset (snapshot : List Listener) (st : ObsState) (l : Listener)
    (hl : l ∈ (notifyAll st snapshot).listeners) : l ∈ st.listeners := by
  induction snapshot generalizing st with
  | nil => exact hl
  | cons x rest IH =>
    have hstep : notifyAll st (x :: rest) = notifyAll (notify st x) rest := by
      simp [notifyAll]
    rw [hstep] at hl
    exact notify_listeners_subset st x l (IH (notify st x) hl)

/-- Characterization of a successful write: the cell stores the clone of the
written value, the allocator advances, every listener registered at write time
is invoked once with the newly stored value, a registered listener survives
the round unless a listener with its function identity returned `"STOP"`, no
listener is added, and exactly the faulting invocations are logged. -/
theorem obsSet_spec (st : ObsState) (v : JSValue) (h : noCloneOp v = true) :
    ∃ w n2 st2, safeClone v st.fresh = .ok (w, n2) ∧ CloneOk v st.fresh w n2 ∧
      obsSet st v = .ok st2 ∧ st2.data = w ∧ st2.fresh = n2 ∧
      st2.trace = st.trace ++ st.listeners.map (fun x => (x.id, w)) ∧
      (∀ l ∈ st.listeners, (∀ x ∈ st.listeners, x.id = l.id → ∀ u, x.fn u ≠ .stop) →
        l ∈ st2.listeners) ∧
      (∀ x ∈ st2.listeners, x ∈ st.listeners) ∧
      st2.warnings = st.warnings ++ st.listeners.filterMap (fun x =>
        match x.fn w with
        | .fault => some faultMsg
        | _ => none) := by
  obtain ⟨w, n2, hw, C⟩ := safeClone_ok v st.fresh h
  refine ⟨w, n2, notifyAll { st with data := w, fresh := n2 } st.listeners,
    hw, C, ?_, ?_, ?_, ?_, ?_, ?_, ?_⟩
  · simp [obsSet, hw]
  · exact (notifyAll_base st.listeners _).1
  · exact (notifyAll_base st.listeners _).2.1
  · exact (notifyAll_base st.listeners _).2.2
  · intro l hl hid
    exact notifyAll_mem st.listeners _ l hl hid
  · intro x hx
    exact notifyAll_listeners_subset st.listeners { st with data := w, fresh := n2 } x hx
  · exact notifyAll_warnings st.listeners _

/-- Updating one key of a clone-operation-free source dictionary with a
clone-operation-free value keeps it clone-operation-free. -/
theorem noCloneOpFields_updateField (l : List (String × JSValue)) (k : String) (w : JSValue)
    (hl : noCloneOpFields l = true) (hw : noCloneOp w = true) :
    noCloneOpFields (updateField l k w) = true := by
  induction l with
  | nil => rfl
  | cons p rest IH =>
    obtain ⟨k2, v2⟩ := p
    simp only [noCloneOpFields, Bool.and_eq_true] at hl
    by_cases hk : k2 = k
    · simp only [updateField, if_pos hk, noCloneOpFields, Bool.and_eq_true]
      exact ⟨hw, IH hl.2⟩
    · simp only [updateField, if_neg hk, noCloneOpFields, Bool.and_eq_true]
      exact ⟨hl.1, IH hl.2⟩

/-- C3: the claim says a class instance with no clone operation is returned
unchanged AND a diagnostic is emitted unless its `skipSafeClone` marker is
`true`. In the source, `safeClone`'s `isLikelyClassInstance` branch returns the
value unchanged and emits no diagnostic at all, and no branch ever reads the
marker: for every class instance — marker set or not — the value comes back
identical, the counter does not move, and the console diagnostic output of
the call is empty. -/
theorem classInstance_clone_silent (i : Nat) (m : Bool) (n : Nat) :
    safeClone (JSValue.classInstance i m) n = .ok (JSValue.classInstance i m, n) ∧
      cloneWarnings (JSValue.classInstance i m) = [] :=
  ⟨rfl, rfl⟩

/-- C4: the claim says `clone` is total and never raises, even for values whose
own clone operation could throw. In the source, `safeClone` invokes
`value.clone()` outside any `try`/`catch`, so an object whose `clone` method
throws makes `safeClone` itself raise — both when such an object is the
argument and when it sits inside an otherwise cloneable structure. -/
theorem clone_raises_on_throwing_clone_method :
    safeClone (JSValue.objWithClone 3 none) 10 = .error () ∧
      safeClone (JSValue.arr 0 [JSValue.objWithClone 3 none]) 10 = .error () ∧
      safeClone (JSValue.obj 1 [("inner", JSValue.objWithClone 3 none)]) 10 = .error () :=
  ⟨rfl, rfl, rfl⟩

/-- C9 counterexample: the claim says an error object is reconstructed
preserving its observable fields including its type/name and carried fields,
not merely the message and stack. Cloning a `TypeError` carrying a `code`
field yields a base `Error` with name `"Error"` and no carried fields: only
the message and stack survive. -/
theorem error_clone_keeps_only_message_and_stack :
    safeClone (JSValue.jserror 0 "TypeError" "boom" (some "trace0")
        [("code", JSValue.num 42)]) 5 =
      .ok (JSValue.jserror 5 "Error" "boom" (some "trace0") [], 6) ∧
      ("Error" : String) ≠ "TypeError" ∧
      ([] : List (String × JSValue)) ≠ [("code", JSValue.num 42)] :=
  ⟨rfl, by decide, by simp⟩

/-- C9 amended: recognized special value types are reconstructed as fresh,
independent instances; time instants, pattern matchers and fixed-size binary
buffers preserve all their observable fields, while error objects are rebuilt
as base `Error`s preserving only the message and the stack (defaulted to
"No Stack Found" when absent), losing their subtype name and carried fields. -/
theorem special_types_reconstructed_fresh (i n : Nat) (hi : i < n) :
    (∀ nm msg stk fields, safeClone (JSValue.jserror i nm msg stk fields) n =
        .ok (JSValue.jserror n "Error" msg (some (stk.getD "No Stack Found")) [], n + 1) ∧
      n ≠ i) ∧
    (∀ t, safeClone (JSValue.date i t) n = .ok (JSValue.date n t, n + 1) ∧ n ≠ i) ∧
    (∀ s f, safeClone (JSValue.regexp i s f) n = .ok (JSValue.regexp n s f, n + 1) ∧ n ≠ i) ∧
    (∀ bs, safeClone (JSValue.arraybuffer i bs) n =
        .ok (JSValue.arraybuffer n bs, n + 1) ∧ n ≠ i) :=
  ⟨fun _ _ _ _ => ⟨rfl, by omega⟩, fun _ => ⟨rfl, by omega⟩,
    fun _ _ => ⟨rfl, by omega⟩, fun _ => ⟨rfl, by omega⟩⟩

/-- Witness for the C9 amended theorem at a concrete instance. -/
theorem special_types_reconstructed_fresh_witness :
    (0 : Nat) < 7 ∧
      (safeClone (JSValue.date 0 1234) 7 = .ok (JSValue.date 7 1234, 8) ∧ (7 : Nat) ≠ 0) :=
  ⟨by decide, (special_types_reconstructed_fresh 0 7 (by decide)).2.1 1234⟩

/-- C2: the claim says every notification delivers a deep clone that never
aliases the cell's internal stored value. In the source, `notify` passes
`this._data` itself to the listener. Here a cell created over `{x: 1}` stores
the clone under identity 10; an immediate subscription delivers *that very
value* (trace records the stored value, identity 10 — whereas the read path
demonstrably clones, returning identity 11); and after a plain subscription, a
write delivers the newly stored internal value itself (identity 11), again
with no clone interposed. -/
theorem notify_delivers_stored_value_itself :
    obsInit (JSValue.obj 0 [("x", JSValue.num 1)]) 10 =
      .ok ⟨JSValue.obj 10 [("x", JSValue.num 1)], [], 11, [], []⟩ ∧
      (obsSubscribe ⟨JSValue.obj 10 [("x", JSValue.num 1)], [], 11, [], []⟩
          ⟨0, fun _ => LRes.next⟩ true).trace =
        [(0, JSValue.obj 10 [("x", JSValue.num 1)])] ∧
      topId (JSValue.obj 10 [("x", JSValue.num 1)]) = some 10 ∧
      obsValue ⟨JSValue.obj 10 [("x", JSValue.num 1)], [], 11, [], []⟩ =
        .ok (JSValue.obj 11 [("x", JSValue.num 1)],
          ⟨JSValue.obj 10 [("x", JSValue.num 1)], [], 12, [], []⟩) ∧
      (∃ st3, obsSet (obsSubscribe ⟨JSValue.obj 10 [("x", JSValue.num 1)], [], 11, [], []⟩
            ⟨0, fun _ => LRes.next⟩ false) (JSValue.obj 0 [("y", JSValue.num 2)]) = .ok st3 ∧
        st3.data = JSValue.obj 11 [("y", JSValue.num 2)] ∧
        st3.trace = [(0, st3.data)]) :=
  ⟨rfl, rfl, rfl, rfl, ⟨_, rfl, rfl, rfl⟩⟩

/-- C5: invoking the Setter Capability while the handle is alive stores a
clone of the new value (deep-equal to it up to error degradation), notifies
every registered listener once with the stored value, and returns `true`;
invoking it once the handle is dead returns `false` and leaves the handle —
stored value, listener list, diagnostics and trace (so no listener is
notified) — entirely unchanged. -/
theorem setter_alive_dead (h : WhisprHandle) (v : JSValue) (hv : noCloneOp v = true) :
    (h.alive = true → ∃ w n2 st2, safeClone v h.cell.fresh = .ok (w, n2) ∧
      whisprSetter h v = .ok (true, ⟨true, st2⟩) ∧
      st2.data = w ∧ deepEq w (normErr v) ∧
      st2.trace = h.cell.trace ++ h.cell.listeners.map (fun x => (x.id, w))) ∧
    (h.alive = false → whisprSetter h v = .ok (false, h)) := by
  constructor
  · intro halive
    obtain ⟨w, n2, st2, hw, C, hset, hd, hf, ht, _⟩ := obsSet_spec h.cell v hv
    refine ⟨w, n2, st2, hw, ?_, hd, C.content, ht⟩
    simp [whisprSetter, halive, hset]
  · intro hdead
    simp [whisprSetter, hdead]

/-- Witness for the C5 theorem: a live handle accepts the write and returns
`true`; the same cell behind a dead handle rejects it with `false`, unchanged. -/
theorem setter_alive_dead_witness :
    noCloneOp (JSValue.num 7) = true ∧
      whisprSetter ⟨false, ⟨JSValue.null, [], 0, [], []⟩⟩ (JSValue.num 7) =
        .ok (false, ⟨false, ⟨JSValue.null, [], 0, [], []⟩⟩) ∧
      (∃ w n2 st2, safeClone (JSValue.num 7) 0 = .ok (w, n2) ∧
        whisprSetter ⟨true, ⟨JSValue.null, [], 0, [], []⟩⟩ (JSValue.num 7) =
          .ok (true, ⟨true, st2⟩) ∧
        st2.data = w ∧ deepEq w (normErr (JSValue.num 7)) ∧
        st2.trace = ([] : List (Nat × JSValue)) ++
          ([] : List Listener).map (fun x => (x.id, w))) :=
  ⟨rfl,
    (setter_alive_dead ⟨false, ⟨JSValue.null, [], 0, [], []⟩⟩ (JSValue.num 7) rfl).2 rfl,
    (setter_alive_dead ⟨true, ⟨JSValue.null, [], 0, [], []⟩⟩ (JSValue.num 7) rfl).1 rfl⟩

/-- C6: a listener that faults on every invocation does not disturb a write:
the write still completes normally (the fault is caught at the dispatch
boundary and does not reach the writer), every registered listener — the
faulting one included — is still invoked once with the new value, the fault is
reported to the console diagnostic channel, the faulting listener remains
subscribed, and on the next write it is notified again. -/
theorem listener_fault_isolated (st : ObsState) (v v2 : JSValue) (l : Listener)
    (hl : l ∈ st.listeners)
    (hsame : ∀ x ∈ st.listeners, x.id = l.id → ∀ u, x.fn u = LRes.fault)
    (hv : noCloneOp v = true) (hv2 : noCloneOp v2 = true) :
    ∃ st2, obsSet st v = .ok st2 ∧
      l ∈ st2.listeners ∧
      st2.trace = st.trace ++ st.listeners.map (fun x => (x.id, st2.data)) ∧
      faultMsg ∈ st2.warnings ∧
      (∃ st3, obsSet st2 v2 = .ok st3 ∧ (l.id, st3.data) ∈ st3.trace) := by
  obtain ⟨w, n2, st2, hw, C, hset, hd, hf, ht, hkeep, hsub, hwarn⟩ := obsSet_spec st v hv
  have hlmem : l ∈ st2.listeners := by
    refine hkeep l hl ?_
    intro x hx hxid u
    rw [hsame x hx hxid u]
    intro hcon
    cases hcon
  refine ⟨st2, hset, hlmem, by rw [ht, hd], ?_, ?_⟩
  · rw [hwarn]
    refine List.mem_append.mpr (Or.inr ?_)
    refine List.mem_filterMap.mpr ⟨l, hl, ?_⟩
    rw [hsame l hl rfl w]
  · obtain ⟨w2, n3, st3, hw2, C2, hset2, hd2, hf2, ht2, _⟩ := obsSet_spec st2 v2 hv2
    refine ⟨st3, hset2, ?_⟩
    rw [ht2, hd2]
    refine List.mem_append.mpr (Or.inr ?_)
    exact List.mem_map.mpr ⟨l, hlmem, rfl⟩

/-- Witness for the C6 theorem: a single always-faulting listener on a cell;
two successive writes both reach it, the write succeeds, and the fault is
logged. -/
theorem listener_fault_isolated_witness :
    (⟨5, fun _ => LRes.fault⟩ : Listener) ∈
        (⟨JSValue.null, [⟨5, fun _ => LRes.fault⟩], 0, [], []⟩ : ObsState).listeners ∧
      noCloneOp (JSValue.num 1) = true ∧ noCloneOp (JSValue.num 2) = true ∧
      (∃ st2, obsSet ⟨JSValue.null, [⟨5, fun _ => LRes.fault⟩], 0, [], []⟩
            (JSValue.num 1) = .ok st2 ∧
        (⟨5, fun _ => LRes.fault⟩ : Listener) ∈ st2.listeners ∧
        st2.trace = ([] : List (Nat × JSValue)) ++
          [(⟨5, fun _ => LRes.fault⟩ : Listener)].map (fun x => (x.id, st2.data)) ∧
        faultMsg ∈ st2.warnings ∧
        (∃ st3, obsSet st2 (JSValue.num 2) = .ok st3 ∧ (5, st3.data) ∈ st3.trace)) := by
  refine ⟨List.mem_singleton.mpr rfl, rfl, rfl, ?_⟩
  exact listener_fault_isolated ⟨JSValue.null, [⟨5, fun _ => LRes.fault⟩], 0, [], []⟩
    (JSValue.num 1) (JSValue.num 2) ⟨5, fun _ => LRes.fault⟩
    (List.mem_singleton.mpr rfl)
    (fun x hx hxid u => by
      rw [List.mem_singleton.mp hx])
    rfl rfl

/-- C10: removal of a listener function is total over its registrations:
the unsubscribe capability filters out every entry whose function identity
matches, a `"STOP"` return likewise removes every matching registration, and
once no registration with that identity remains, a subsequent write invokes
no listener with that identity (every new trace entry carries a different
identity). -/
theorem duplicate_registrations_removed_together (st : ObsState) (i : Nat) (v : JSValue)
    (hv : noCloneOp v = true) :
    (∀ x ∈ (obsUnsubscribe st i).listeners, x.id ≠ i) ∧
      (∀ l : Listener, l.id = i → l.fn st.data = LRes.stop →
        ∀ x ∈ (notify st l).listeners, x.id ≠ i) ∧
      ((∀ x ∈ st.listeners, x.id ≠ i) →
        ∃ st2, obsSet st v = .ok st2 ∧ (∀ x ∈ st2.listeners, x.id ≠ i) ∧
          ∀ e ∈ st2.trace, e ∈ st.trace ∨ Prod.fst e ≠ i) := by
  refine ⟨?_, ?_, ?_⟩
  · intro x hx
    have := (List.mem_filter.mp hx).2
    simpa using this
  · intro l hlid hstop x hx
    unfold notify at hx
    rw [hstop] at hx
    have := (List.mem_filter.mp hx).2
    simp only [bne_iff_ne, ne_eq] at this
    rw [hlid] at this
    exact this
  · intro hnone
    obtain ⟨w, n2, st2, hw, C, hset, hd, hf, ht, hkeep, hsub, hwarn⟩ := obsSet_spec st v hv
    refine ⟨st2, hset, ?_, ?_⟩
    · intro x hx
      exact hnone x (hsub x hx)
    · intro e he
      rw [ht] at he
      rcases List.mem_append.mp he with he | he
      · exact Or.inl he
      · obtain ⟨x, hx, hxe⟩ := List.mem_map.mp he
        refine Or.inr ?_
        rw [← hxe]
        exact hnone x hx

/-- Witness for the C10 theorem: a cell with the same function registered
twice (identity 1) plus an unrelated listener; unsubscribing identity 1
removes both registrations, a `"STOP"` from it removes both, and a write to
the pruned cell delivers only to other identities. -/
theorem duplicate_registrations_removed_together_witness :
    noCloneOp (JSValue.num 5) = true ∧
      ((∀ x ∈ (obsUnsubscribe ⟨JSValue.num 0,
          [⟨1, fun _ => LRes.stop⟩, ⟨1, fun _ => LRes.stop⟩, ⟨2, fun _ => LRes.next⟩],
          0, [], []⟩ 1).listeners, x.id ≠ 1) ∧
        (∀ l : Listener, l.id = 1 →
          l.fn (⟨JSValue.num 0,
            [⟨1, fun _ => LRes.stop⟩, ⟨1, fun _ => LRes.stop⟩, ⟨2, fun _ => LRes.next⟩],
            0, [], []⟩ : ObsState).data = LRes.stop →
          ∀ x ∈ (notify ⟨JSValue.num 0,
            [⟨1, fun _ => LRes.stop⟩, ⟨1, fun _ => LRes.stop⟩, ⟨2, fun _ => LRes.next⟩],
            0, [], []⟩ l).listeners, x.id ≠ 1) ∧
        ((∀ x ∈ (⟨JSValue.num 0,
            [⟨1, fun _ => LRes.stop⟩, ⟨1, fun _ => LRes.stop⟩, ⟨2, fun _ => LRes.next⟩],
            0, [], []⟩ : ObsState).listeners, x.id ≠ 1) →
          ∃ st2, obsSet ⟨JSValue.num 0,
            [⟨1, fun _ => LRes.stop⟩, ⟨1, fun _ => LRes.stop⟩, ⟨2, fun _ => LRes.next⟩],
            0, [], []⟩ (JSValue.num 5) = .ok st2 ∧
            (∀ x ∈ st2.listeners, x.id ≠ 1) ∧
            ∀ e ∈ st2.trace, e ∈ (⟨JSValue.num 0,
              [⟨1, fun _ => LRes.stop⟩, ⟨1, fun _ => LRes.stop⟩, ⟨2, fun _ => LRes.next⟩],
              0, [], []⟩ : ObsState).trace ∨ Prod.fst e ≠ 1)) :=
  ⟨rfl, duplicate_registrations_removed_together
    ⟨JSValue.num 0,
      [⟨1, fun _ => LRes.stop⟩, ⟨1, fun _ => LRes.stop⟩, ⟨2, fun _ => LRes.next⟩],
      0, [], []⟩ 1 (JSValue.num 5) rfl⟩

/-- C8 counterexample: the claim says a write-then-read round trip yields a
value deep-equal to `v` whenever `v` has no uncloneable substructure. For an
error value the round trip is not deep-equal: writing a `TypeError` and
reading back yields a base `Error` whose name differs. -/
theorem write_read_error_not_deep_equal :
    obsInit JSValue.null 1 = .ok ⟨JSValue.null, [], 1, [], []⟩ ∧
      obsSet ⟨JSValue.null, [], 1, [], []⟩
          (JSValue.jserror 0 "TypeError" "boom" (some "s") []) =
        .ok ⟨JSValue.jserror 1 "Error" "boom" (some "s") [], [], 2, [], []⟩ ∧
      obsValue ⟨JSValue.jserror 1 "Error" "boom" (some "s") [], [], 2, [], []⟩ =
        .ok (JSValue.jserror 2 "Error" "boom" (some "s") [],
          ⟨JSValue.jserror 1 "Error" "boom" (some "s") [], [], 3, [], []⟩) ∧
      ¬ deepEq (JSValue.jserror 2 "Error" "boom" (some "s") [])
        (JSValue.jserror 0 "TypeError" "boom" (some "s") []) :=
  ⟨rfl, rfl, rfl, by simp [deepEq, strip, stripFields]⟩

/-- C8 amended: for every value `v` free of custom clone operations (whose
cloning therefore runs no user code), `read()` immediately after `write(v)`
succeeds and yields a value deep-equal to `v` after degrading every error
object in `v` to a base error carrying only message and stack; the result
shares no heap identity with `v` except identities of `v`'s uncloneable
(identity-shared) substructure — in particular, when `v`'s top node is
cloneable the result is not reference-equal to `v`. -/
theorem write_read_roundtrip (st : ObsState) (v : JSValue)
    (hv : noCloneOp v = true) (hids : idsBelow v st.fresh) :
    ∃ st2 r st3, obsSet st v = .ok st2 ∧ obsValue st2 = .ok (r, st3) ∧
      deepEq r (normErr v) ∧
      (∀ i, i ∈ allIds r → i ∈ allIds v → i ∈ opaqueIds v) ∧
      (cloneableTop v = true → ∀ j, topId v = some j → topId r ≠ some j) := by
  obtain ⟨w, n2, st2, hw, C, hset, hd, hf, ht, _⟩ := obsSet_spec st v hv
  obtain ⟨r, n3, hr, C2⟩ := safeClone_ok w n2 C.noClone
  have hval : obsValue st2 = .ok (r, { st2 with fresh := n3 }) := by
    unfold obsValue
    rw [hd, hf, hr]
  refine ⟨st2, r, { st2 with fresh := n3 }, hset, hval, ?_, ?_, ?_⟩
  · show strip r = strip (normErr v)
    rw [C2.content, normErr_eq_of_errNormal w C.normal, C.content]
  · intro i hir hiv
    have hbound := hids i hiv
    have hle := C.le
    rcases C2.fresh i hir with hop | ⟨hge, _⟩
    · exact C.sharedSub i hop
    · omega
  · intro hct j hjv
    obtain ⟨j1, hj1, hge1, hlt1, hct2⟩ := C.top hct
    obtain ⟨j2, hj2, hge2, hlt2, _⟩ := C2.top hct2
    rw [hj2]
    intro hcon
    have hj2j : j2 = j := Option.some.inj hcon
    have hjmem := topId_mem_allIds v j hjv
    have hjlt := hids j hjmem
    have hle := C.le
    omega

/-- Witness for the C8 amended theorem: a plain object holding a number and a
function, written to and read from a fresh cell. -/
theorem write_read_roundtrip_witness :
    noCloneOp (JSValue.obj 0 [("a", JSValue.num 1), ("f", JSValue.func 7)]) = true ∧
      idsBelow (JSValue.obj 0 [("a", JSValue.num 1), ("f", JSValue.func 7)]) 10 ∧
      (∃ st2 r st3,
        obsSet ⟨JSValue.null, [], 10, [], []⟩
            (JSValue.obj 0 [("a", JSValue.num 1), ("f", JSValue.func 7)]) = .ok st2 ∧
        obsValue st2 = .ok (r, st3) ∧
        deepEq r (normErr (JSValue.obj 0 [("a", JSValue.num 1), ("f", JSValue.func 7)])) ∧
        (∀ i, i ∈ allIds r →
          i ∈ allIds (JSValue.obj 0 [("a", JSValue.num 1), ("f", JSValue.func 7)]) →
          i ∈ opaqueIds (JSValue.obj 0 [("a", JSValue.num 1), ("f", JSValue.func 7)])) ∧
        (cloneableTop (JSValue.obj 0 [("a", JSValue.num 1), ("f", JSValue.func 7)]) = true →
          ∀ j, topId (JSValue.obj 0 [("a", JSValue.num 1), ("f", JSValue.func 7)]) = some j →
            topId r ≠ some j)) :=
  ⟨rfl, by unfold idsBelow; decide,
    write_read_roundtrip ⟨JSValue.null, [], 10, [], []⟩
      (JSValue.obj 0 [("a", JSValue.num 1), ("f", JSValue.func 7)]) rfl
      (by unfold idsBelow; decide)⟩

/-- One write to a source of a derivation: the source stores the clone of the
new value, the triggered recomputation's argument dictionary is a clone of the
*updated* current source values (not of any earlier snapshot), and the derived
cell stores a clone of the combining function's result on those arguments. -/
theorem writeSource_spec (cb : List (String × JSValue) → JSValue) (s : FromSim)
    (k : String) (v : JSValue)
    (hv : noCloneOp v = true) (hs : noCloneOpFields s.sources = true)
    (hcb : ∀ args, noCloneOp (cb args) = true) :
    ∃ w n2 args n3 d2 n4,
      safeClone v s.fresh = .ok (w, n2) ∧ CloneOk v s.fresh w n2 ∧
      writeSource cb s k v =
        .ok ⟨updateField s.sources k w, d2, n4, s.recombs ++ [(args, d2)]⟩ ∧
      safeCloneFields (updateField s.sources k w) n2 = .ok (args, n3) ∧
      stripFields args = stripFields (normErrFields (updateField s.sources k w)) ∧
      deepEq d2 (normErr (cb args)) := by
  obtain ⟨w, n2, hw, C⟩ := safeClone_ok v s.fresh hv
  have hupd : noCloneOpFields (updateField s.sources k w) = true :=
    noCloneOpFields_updateField s.sources k w hs C.noClone
  obtain ⟨args, n3, hargs, L⟩ :=
    safeCloneFields_ok (updateField s.sources k w)
      (fun p _ => safeClone_ok (Prod.snd p)) n2 hupd
  obtain ⟨d2, n4, hd2, CD⟩ := safeClone_ok (cb args) n3 (hcb args)
  refine ⟨w, n2, args, n3, d2, n4, hw, C, ?_, hargs, L.content, CD.content⟩
  simp [writeSource, hw, getValue, hargs, hd2]

/-- C7: writing to source `a` of a derivation alone triggers one recomputation
whose argument dictionary is (a clone of) the *current* source values — `a`'s
new value together with the other sources' latest stored values, not a
snapshot from subscription time — and whose result the derived cell stores;
writing to `a` and then to `b` in immediate succession triggers exactly two
recomputations, the second computed from the source values reflecting both
new writes. -/
theorem from_recomputes_from_current_values (cb : List (String × JSValue) → JSValue)
    (s : FromSim) (a b : String) (va vb : JSValue)
    (hva : noCloneOp va = true) (hvb : noCloneOp vb = true)
    (hs : noCloneOpFields s.sources = true)
    (hcb : ∀ args, noCloneOp (cb args) = true) :
    ∃ wa args1 d1 s1,
      (∃ n2, safeClone va s.fresh = .ok (wa, n2)) ∧ deepEq wa (normErr va) ∧
      writeSource cb s a va = .ok s1 ∧
      s1.sources = updateField s.sources a wa ∧
      s1.recombs = s.recombs ++ [(args1, d1)] ∧
      stripFields args1 = stripFields (normErrFields (updateField s.sources a wa)) ∧
      deepEq d1 (normErr (cb args1)) ∧
      (∃ wb args2 d2 s2,
        (∃ n5, safeClone vb s1.fresh = .ok (wb, n5)) ∧ deepEq wb (normErr vb) ∧
        writeSource cb s1 b vb = .ok s2 ∧
        s2.sources = updateField (updateField s.sources a wa) b wb ∧
        s2.recombs = s.recombs ++ [(args1, d1), (args2, d2)] ∧
        stripFields args2 =
          stripFields (normErrFields (updateField (updateField s.sources a wa) b wb)) ∧
        deepEq d2 (normErr (cb args2))) := by
  obtain ⟨wa, n2, args1, n3, d1, n4, hwa, CA, hws1, hargs1, hstrip1, hd1⟩ :=
    writeSource_spec cb s a va hva hs hcb
  have hs1src : noCloneOpFields (updateField s.sources a wa) = true :=
    noCloneOpFields_updateField s.sources a wa hs CA.noClone
  obtain ⟨wb, n5, args2, n6, d2, n7, hwb, CB, hws2, hargs2, hstrip2, hd2⟩ :=
    writeSource_spec cb ⟨updateField s.sources a wa, d1, n4, s.recombs ++ [(args1, d1)]⟩
      b vb hvb hs1src hcb
  refine ⟨wa, args1, d1, ⟨updateField s.sources a wa, d1, n4, s.recombs ++ [(args1, d1)]⟩,
    ⟨n2, hwa⟩, CA.content, hws1, rfl, rfl, hstrip1, hd1, ?_⟩
  refine ⟨wb, args2, d2,
    ⟨updateField (updateField s.sources a wa) b wb, d2, n7,
      (s.recombs ++ [(args1, d1)]) ++ [(args2, d2)]⟩,
    ⟨n5, hwb⟩, CB.content, hws2, rfl, by simp, hstrip2, hd2⟩

/-- Witness for the C7 theorem: a two-source derivation over `a = 1`, `b = 2`
with a constant combining function, written at `a` then at `b`. -/
theorem from_recomputes_from_current_values_witness :
    noCloneOp (JSValue.num 10) = true ∧ noCloneOp (JSValue.num 20) = true ∧
      noCloneOpFields ([("a", JSValue.num 1), ("b", JSValue.num 2)]) = true ∧
      (∀ args, noCloneOp ((fun _ : List (String × JSValue) => JSValue.num 3) args) = true) ∧
      (∃ wa args1 d1 s1,
        (∃ n2, safeClone (JSValue.num 10)
          (⟨[("a", JSValue.num 1), ("b", JSValue.num 2)], JSValue.null, 0, []⟩ :
            FromSim).fresh = .ok (wa, n2)) ∧
        deepEq wa (normErr (JSValue.num 10)) ∧
        writeSource (fun _ : List (String × JSValue) => JSValue.num 3)
          ⟨[("a", JSValue.num 1), ("b", JSValue.num 2)], JSValue.null, 0, []⟩ "a"
          (JSValue.num 10) = .ok s1 ∧
        s1.sources = updateField [("a", JSValue.num 1), ("b", JSValue.num 2)] "a" wa ∧
        s1.recombs = [] ++ [(args1, d1)] ∧
        stripFields args1 = stripFields (normErrFields
          (updateField [("a", JSValue.num 1), ("b", JSValue.num 2)] "a" wa)) ∧
        deepEq d1 (normErr ((fun _ : List (String × JSValue) => JSValue.num 3) args1)) ∧
        (∃ wb args2 d2 s2,
          (∃ n5, safeClone (JSValue.num 20) s1.fresh = .ok (wb, n5)) ∧
          deepEq wb (normErr (JSValue.num 20)) ∧
          writeSource (fun _ : List (String × JSValue) => JSValue.num 3) s1 "b" (JSValue.num 20) = .ok s2 ∧
          s2.sources = updateField
            (updateField [("a", JSValue.num 1), ("b", JSValue.num 2)] "a" wa) "b" wb ∧
          s2.recombs = [] ++ [(args1, d1), (args2, d2)] ∧
          stripFields args2 = stripFields (normErrFields (updateField
            (updateField [("a", JSValue.num 1), ("b", JSValue.num 2)] "a" wa) "b" wb)) ∧
          deepEq d2 (normErr ((fun _ : List (String × JSValue) => JSValue.num 3) args2)))) :=
  ⟨rfl, rfl, rfl, fun _ => rfl,
    from_recomputes_from_current_values (fun _ : List (String × JSValue) => JSValue.num 3)
      ⟨[("a", JSValue.num 1), ("b", JSValue.num 2)], JSValue.null, 0, []⟩ "a" "b"
      (JSValue.num 10) (JSValue.num 20) rfl rfl rfl (fun _ => rfl)⟩

/-- C1: the claim says `wait(predicate)` evaluates the predicate on every
delivered value — including falsy ones such as `0` — and resolves with the
first value for which the predicate yields a present result. In the source the
installed listener begins with `if (!data) return;`, so a falsy delivered
value is skipped before the predicate runs: with a predicate that yields a
present result for every value, the immediate delivery of the initial `null`
and a write of `0` leave the predicate unevaluated and the promise pending
(while a later truthy write does resolve it). -/
theorem wait_skips_falsy_values :
    waitInstall (fun _ => some (JSValue.str "hit")) JSValue.null 0 =
      .ok ⟨JSValue.null, 0, true, none, 0⟩ ∧
      waitWrite (fun _ => some (JSValue.str "hit")) ⟨JSValue.null, 0, true, none, 0⟩
          (JSValue.num 0) =
        .ok ⟨JSValue.num 0, 0, true, none, 0⟩ ∧
      (fun _ => some (JSValue.str "hit")) (JSValue.num 0) = some (JSValue.str "hit") ∧
      waitWrite (fun _ => some (JSValue.str "hit")) ⟨JSValue.num 0, 0, true, none, 0⟩
          (JSValue.num 5) =
        .ok ⟨JSValue.num 5, 0, false, some (JSValue.str "hit"), 1⟩ :=
  ⟨rfl, rfl, rfl, rfl⟩

end Whispr

